import Mathlib

/-!
Verification of the Seo-Analyzer correction engine.

Strings are modelled as `List Char` (JavaScript strings, one `Char` per code
unit).  JavaScript's `String.prototype.substring` clamps its arguments to
`[0, length]` and swaps them when out of order; both behaviours are embedded
faithfully below.  Component state (`content`, `results`, `fixedMatches`) is
modelled explicitly, and the asynchronous oracle call is a parameter of type
`Except Unit ReadabilityResponse` standing for the resolved axios promise.
-/

/-- A candidate replacement and its surrounding finding, copied from the
`Match` type of `CorrrectionDisplay.tsx` / `InputContent.tsx`.  A
replacement object `{value: string}` is represented by its `value`;
`context` is represented by its `text` field, the only one used. -/
structure Match where
  message : List Char
  shortMessage : List Char
  replacements : List (List Char)
  offset : Nat
  length : Nat
  context : List Char
deriving DecidableEq, Repr

/-- JavaScript `s.substring(a, b)`: both indices are clamped to
`[0, s.length]` and swapped when `a > b` (indices here are already `Nat`,
so only the upper clamp matters). -/
def jsSubstring (s : List Char) (a b : Nat) : List Char :=
  let a' := min a s.length
  let b' := min b s.length
  (s.take (max a' b')).drop (min a' b')

/-- JavaScript one-argument `s.substring(a)`, i.e. `s.substring(a, s.length)`. -/
def jsSubstringFrom (s : List Char) (a : Nat) : List Char :=
  s.drop (min a s.length)

/-- The replacement applicator of `handleFix` (`CorrrectionDisplay.tsx`
lines 70-73) and of the insert-keyword endpoint: `content.substring(0,
match.offset) + replacement + content.substring(match.offset +
match.length)`. -/
def handleFix (content : List Char) (mt : Match) (replacement : List Char) : List Char :=
  jsSubstring content 0 mt.offset ++ replacement ++ jsSubstringFrom content (mt.offset + mt.length)

lemma jsSubstring_zero (s : List Char) (b : Nat) :
    jsSubstring s 0 b = s.take b := by
  unfold jsSubstring
  simp only [Nat.zero_min, Nat.max_eq_right (Nat.zero_le _),
    Nat.min_eq_right (Nat.zero_le _), List.drop_zero]
  rcases Nat.le_total b s.length with h | h
  · rw [Nat.min_eq_left h]
  · rw [Nat.min_eq_right h, List.take_length, List.take_of_length_le h]

lemma jsSubstringFrom_eq_drop (s : List Char) (a : Nat) :
    jsSubstringFrom s a = s.drop a := by
  unfold jsSubstringFrom
  rcases Nat.le_total a s.length with h | h
  · rw [Nat.min_eq_left h]
  · rw [Nat.min_eq_right h, List.drop_length, List.drop_eq_nil_of_le h]

/-- Unconditional shape of the applicator: JavaScript substring clamps, so
the result is always `take offset ++ replacement ++ drop (offset+length)`. -/
lemma handleFix_eq (content : List Char) (mt : Match) (replacement : List Char) :
    handleFix content mt replacement =
      content.take mt.offset ++ replacement ++ content.drop (mt.offset + mt.length) := by
  unfold handleFix
  rw [jsSubstring_zero, jsSubstringFrom_eq_drop]

/-- C1: whenever `finding.offset + finding.length <= len(content)`, applying
the replacement yields exactly
`content[0:offset] ++ replacement ++ content[offset+length:]`. -/
theorem handleFix_in_range (content replacement : List Char) (mt : Match)
    (h : mt.offset + mt.length ≤ content.length) :
    handleFix content mt replacement =
      content.take mt.offset ++ replacement ++ content.drop (mt.offset + mt.length) :=
  handleFix_eq content mt replacement

/-- A stale finding whose span `[8, 8+5)` overruns a length-10 content. -/
def staleMatch : Match :=
  ⟨"Grammatical error".data, [], ["XY".data], 8, 5, []⟩

/-- C2 counterexample: for the length-10 content `"0123456789"` and a finding
with offset 8 and length 5, the applicator does not fail and does not return
the content unchanged: it silently truncates, returning `"01234567XY"`. -/
theorem handleFix_out_of_range_counterexample :
    ("0123456789".data).length = 10 ∧
      handleFix ("0123456789".data) staleMatch ("XY".data) = "01234567XY".data ∧
      handleFix ("0123456789".data) staleMatch ("XY".data) ≠ "0123456789".data := by
  refine ⟨by decide, by decide, by decide⟩

/-- C2 amended: when `finding.offset + finding.length > len(content)`, the
application does not fail with any error; JavaScript substring clamps the
range, so the result is `content[0:offset] ++ replacement` — the text after
the flagged span is silently dropped and the content is changed whenever
that differs from it. -/
theorem handleFix_out_of_range (content replacement : List Char) (mt : Match)
    (h : content.length < mt.offset + mt.length) :
    handleFix content mt replacement = content.take mt.offset ++ replacement := by
  rw [handleFix_eq, List.drop_eq_nil_of_le (Nat.le_of_lt h), List.append_nil]

/-- C2 amended witness: the clamped result on the length-10 example. -/
theorem handleFix_out_of_range_witness :
    ("0123456789".data).length < staleMatch.offset + staleMatch.length ∧
      handleFix ("0123456789".data) staleMatch ("XY".data) =
        ("0123456789".data).take staleMatch.offset ++ "XY".data := by
  exact ⟨by decide, handleFix_out_of_range ("0123456789".data) ("XY".data) staleMatch (by decide)⟩

/-- The fingerprint of a finding, from the template literal
`\x7b match.offset\x7d-\x7bmatch.length\x7d-\x7bmatch.message.substring(0, 20)\x7d`
computed identically in `handleFix`, `separateMatches` and the render paths. -/
def matchKey (mt : Match) : List Char :=
  (Nat.repr mt.offset).data ++ '-' :: (Nat.repr mt.length).data ++
    '-' :: jsSubstring mt.message 0 20

/-- C5: the fingerprint is the deterministic composition of offset, length
and the first 20 characters of the message (the whole message when shorter);
recomputation yields the same key, and two findings agreeing on offset,
length and message prefix get equal keys regardless of their replacements. -/
theorem matchKey_spec (f g : Match) :
    matchKey f = (Nat.repr f.offset).data ++ '-' :: (Nat.repr f.length).data ++
        '-' :: f.message.take 20 ∧
      matchKey f = matchKey f ∧
      (f.offset = g.offset → f.length = g.length →
        f.message.take 20 = g.message.take 20 → matchKey f = matchKey g) := by
  have hshape : ∀ m : Match, matchKey m = (Nat.repr m.offset).data ++
      '-' :: (Nat.repr m.length).data ++ '-' :: m.message.take 20 := by
    intro m
    unfold matchKey
    rw [jsSubstring_zero]
  refine ⟨hshape f, rfl, fun h1 h2 h3 => ?_⟩
  rw [hshape f, hshape g, h1, h2, h3]

/-- Two findings with the same offset, length and 20-character message
prefix, but different message tails and different replacement lists. -/
def fmsgA : Match :=
  ⟨"Possible spelling mistake found in A".data, [], ["color".data], 7, 5, "S".data⟩

def fmsgB : Match :=
  ⟨"Possible spelling mistake found in B".data, [],
    ["colour".data, "colors".data], 7, 5, "S".data⟩

/-- C5 witness: the two concrete findings above receive equal fingerprints
although their messages differ past character 20 and their replacement
lists differ. -/
theorem matchKey_spec_witness :
    matchKey fmsgA = matchKey fmsgB ∧ fmsgA.replacements ≠ fmsgB.replacements :=
  ⟨(matchKey_spec fmsgA fmsgB).2.2 (by decide) (by decide) (by decide), by decide⟩

/-- The classifier of `separateMatches` (`CorrrectionDisplay.tsx` lines
83-99): a `forEach` pushing each match with exactly one replacement whose
key is not in `fixedMatches` onto `corrections`, every other match onto
`suggestions`. -/
def separateMatches (fixedMatches : List (List Char)) : List Match → List Match × List Match
  | [] => ([], [])
  | mt :: rest =>
    let p := separateMatches fixedMatches rest
    if mt.replacements.length == 1 && !(fixedMatches.contains (matchKey mt)) then
      (mt :: p.1, p.2)
    else
      (p.1, mt :: p.2)

lemma separateMatches_fst (fm : List (List Char)) (ms : List Match) :
    (separateMatches fm ms).1 =
      ms.filter (fun mt => mt.replacements.length == 1 && !(fm.contains (matchKey mt))) := by
  induction ms with
  | nil => rfl
  | cons mt rest ih =>
    simp only [separateMatches, List.filter_cons]
    cases mt.replacements.length == 1 && !(fm.contains (matchKey mt)) with
    | true => simp [ih]
    | false => simp [ih]

lemma separateMatches_snd (fm : List (List Char)) (ms : List Match) :
    (separateMatches fm ms).2 =
      ms.filter (fun mt => !(mt.replacements.length == 1 && !(fm.contains (matchKey mt)))) := by
  induction ms with
  | nil => rfl
  | cons mt rest ih =>
    simp only [separateMatches, List.filter_cons]
    cases mt.replacements.length == 1 && !(fm.contains (matchKey mt)) with
    | true => simp [ih]
    | false => simp [ih]

/-- C3: the classifier puts a finding into `corrections` iff it has exactly
one replacement and its key is not in `fixedMatches`, into `suggestions`
otherwise; both outputs are order-preserving filters of the input; and a
one-replacement finding whose key is marked resolved lands in
`suggestions` (it is reclassified, not dropped). -/
theorem separateMatches_spec (fixedMatches : List (List Char)) (ms : List Match) :
    (separateMatches fixedMatches ms).1 =
        ms.filter
          (fun mt => mt.replacements.length == 1 && !(fixedMatches.contains (matchKey mt))) ∧
      (separateMatches fixedMatches ms).2 =
        ms.filter
          (fun mt => !(mt.replacements.length == 1 && !(fixedMatches.contains (matchKey mt)))) ∧
      ∀ mt ∈ ms, mt.replacements.length = 1 →
        fixedMatches.contains (matchKey mt) = true →
        mt ∈ (separateMatches fixedMatches ms).2 := by
  refine ⟨separateMatches_fst _ _, separateMatches_snd _ _, fun mt hm h1 h2 => ?_⟩
  rw [separateMatches_snd]
  have h2m : matchKey mt ∈ fixedMatches := by simpa using h2
  exact List.mem_filter.mpr ⟨hm, by simp [h1, h2m]⟩

/-- A finding with a single replacement, used to exercise reclassification. -/
def fsingle : Match :=
  ⟨"Grammatical error".data, [], ["doesn't".data], 4, 4, "She dont like apples.".data⟩

/-- C3 witness: once `fsingle`'s key is marked resolved, a classification
pass over `[fsingle]` places it in `suggestions`. -/
theorem separateMatches_spec_witness :
    fsingle ∈ (separateMatches [matchKey fsingle] [fsingle]).2 :=
  (separateMatches_spec [matchKey fsingle] [fsingle]).2.2 fsingle
    (by decide) (by decide) (by simp)

/-- Key-presence test on the association-list model of the JS record
`sentenceMap` (the code's `if (!sentenceMap[sentence])` guard). -/
def hasKey : List (List Char × List Match) → List Char → Bool
  | [], _ => false
  | (k, _) :: rest, s => if k = s then true else hasKey rest s

/-- Property lookup `sentenceMap[sentence]` on the association-list model;
a missing key reads as the empty group. -/
def lookupGroup : List (List Char × List Match) → List Char → List Match
  | [], _ => []
  | (k, v) :: rest, s => if k = s then v else lookupGroup rest s

/-- The in-place `sentenceMap[sentence].push(match)` on the entry whose key
is the match's context; every other entry is untouched. -/
def bumpGroup (c : List Char) (mt : Match) (p : List Char × List Match) :
    List Char × List Match :=
  if p.1 = c then (p.1, p.2 ++ [mt]) else p

/-- One `forEach` step of `groupMatchesBySentence`: create the entry when
the context string is new, then push the match onto its group. -/
def pushGroup (acc : List (List Char × List Match)) (mt : Match) :
    List (List Char × List Match) :=
  if hasKey acc mt.context then
    acc.map (bumpGroup mt.context mt)
  else
    acc ++ [(mt.context, [mt])]

lemma bumpGroup_eq (c : List Char) (mt : Match) (k : List Char) (v : List Match)
    (h : k = c) : bumpGroup c mt (k, v) = (k, v ++ [mt]) := by
  simp [bumpGroup, h]

lemma bumpGroup_ne (c : List Char) (mt : Match) (k : List Char) (v : List Match)
    (h : k ≠ c) : bumpGroup c mt (k, v) = (k, v) := by
  simp [bumpGroup, h]

/-- The sentence grouper (`CorrrectionDisplay.tsx` lines 102-114). -/
def groupMatchesBySentence (ms : List Match) : List (List Char × List Match) :=
  ms.foldl pushGroup []

lemma lookupGroup_nil_of_not_hasKey (acc : List (List Char × List Match))
    (s : List Char) (h : hasKey acc s = false) : lookupGroup acc s = [] := by
  induction acc with
  | nil => rfl
  | cons p rest ih =>
    obtain ⟨k, v⟩ := p
    by_cases hk : k = s
    · simp [hasKey, hk] at h
    · simp only [hasKey, if_neg hk] at h
      simp [lookupGroup, hk, ih h]

lemma lookupGroup_append_of_hasKey (acc l : List (List Char × List Match))
    (s : List Char) (h : hasKey acc s = true) :
    lookupGroup (acc ++ l) s = lookupGroup acc s := by
  induction acc with
  | nil => simp [hasKey] at h
  | cons p rest ih =>
    obtain ⟨k, v⟩ := p
    by_cases hk : k = s
    · simp [lookupGroup, if_pos hk]
    · simp only [hasKey, if_neg hk] at h
      simp [lookupGroup, hk, ih h]

lemma lookupGroup_append_of_not_hasKey (acc l : List (List Char × List Match))
    (s : List Char) (h : hasKey acc s = false) :
    lookupGroup (acc ++ l) s = lookupGroup l s := by
  induction acc with
  | nil => simp
  | cons p rest ih =>
    obtain ⟨k, v⟩ := p
    by_cases hk : k = s
    · simp [hasKey, hk] at h
    · simp only [hasKey, if_neg hk] at h
      simp [lookupGroup, hk, ih h]

lemma lookupGroup_update_ne (acc : List (List Char × List Match)) (mt : Match)
    (s : List Char) (h : mt.context ≠ s) :
    lookupGroup (acc.map (bumpGroup mt.context mt)) s = lookupGroup acc s := by
  induction acc with
  | nil => rfl
  | cons p rest ih =>
    obtain ⟨k, v⟩ := p
    by_cases hk : k = mt.context
    · have hks : k ≠ s := by rw [hk]; exact h
      rw [List.map_cons, bumpGroup_eq mt.context mt k v hk]
      simp [lookupGroup, hks, ih]
    · rw [List.map_cons, bumpGroup_ne mt.context mt k v hk]
      by_cases hs : k = s
      · simp [lookupGroup, hs]
      · simp [lookupGroup, hs, ih]

lemma lookupGroup_update_eq (acc : List (List Char × List Match)) (mt : Match)
    (h : hasKey acc mt.context = true) :
    lookupGroup (acc.map (bumpGroup mt.context mt)) mt.context =
      lookupGroup acc mt.context ++ [mt] := by
  induction acc with
  | nil => simp [hasKey] at h
  | cons p rest ih =>
    obtain ⟨k, v⟩ := p
    by_cases hk : k = mt.context
    · rw [List.map_cons, bumpGroup_eq mt.context mt k v hk]
      simp [lookupGroup, hk]
    · rw [List.map_cons, bumpGroup_ne mt.context mt k v hk]
      simp only [hasKey, if_neg hk] at h
      simp [lookupGroup, hk, ih h]

lemma lookupGroup_pushGroup (acc : List (List Char × List Match)) (mt : Match)
    (s : List Char) :
    lookupGroup (pushGroup acc mt) s =
      lookupGroup acc s ++ (if mt.context = s then [mt] else []) := by
  unfold pushGroup
  cases hk : hasKey acc mt.context with
  | true =>
    rw [if_pos rfl]
    by_cases hs : mt.context = s
    · subst hs
      rw [lookupGroup_update_eq acc mt hk]
      simp
    · rw [lookupGroup_update_ne acc mt s hs, if_neg hs, List.append_nil]
  | false =>
    rw [if_neg Bool.false_ne_true]
    by_cases hs : mt.context = s
    · subst hs
      rw [lookupGroup_append_of_not_hasKey acc _ _ hk,
        lookupGroup_nil_of_not_hasKey acc _ hk]
      simp [lookupGroup]
    · rw [if_neg hs, List.append_nil]
      cases hacc : hasKey acc s with
      | true => rw [lookupGroup_append_of_hasKey acc _ _ hacc]
      | false =>
        rw [lookupGroup_append_of_not_hasKey acc _ _ hacc,
          lookupGroup_nil_of_not_hasKey acc _ hacc]
        simp [lookupGroup, hs]

lemma lookupGroup_foldl (ms : List Match) (acc : List (List Char × List Match))
    (s : List Char) :
    lookupGroup (ms.foldl pushGroup acc) s =
      lookupGroup acc s ++ ms.filter (fun mt => decide (mt.context = s)) := by
  induction ms generalizing acc with
  | nil => simp
  | cons mt rest ih =>
    rw [List.foldl_cons, ih, lookupGroup_pushGroup]
    by_cases h : mt.context = s <;>
      simp [List.filter_cons, h, List.append_assoc]

/-- C6: the grouper maps each verbatim context string to the ordered list
of findings sharing exactly that context — the group read back for a
sentence is the order-preserving filter of the input on context equality,
so identical contexts share one group in input order and distinct context
strings never merge. -/
theorem groupMatchesBySentence_spec (ms : List Match) (sentence : List Char) :
    lookupGroup (groupMatchesBySentence ms) sentence =
        ms.filter (fun mt => decide (mt.context = sentence)) ∧
      ∀ mt ∈ ms, mt.context ≠ sentence →
        mt ∉ lookupGroup (groupMatchesBySentence ms) sentence := by
  have hmain : lookupGroup (groupMatchesBySentence ms) sentence =
      ms.filter (fun mt => decide (mt.context = sentence)) := by
    unfold groupMatchesBySentence
    rw [lookupGroup_foldl]
    simp [lookupGroup]
  refine ⟨hmain, fun mt _ hne hmem => ?_⟩
  rw [hmain] at hmem
  exact hne (of_decide_eq_true (List.mem_filter.mp hmem).2)

/-- Findings used to exercise the grouper on concrete input. -/
def gms1 : Match := ⟨"m1".data, [], [], 0, 1, "S1".data⟩

def gms2 : Match := ⟨"m2".data, [], ["a".data], 3, 2, "S1".data⟩

def gms3 : Match := ⟨"m3".data, [], [], 9, 1, "S2".data⟩

/-- C6 witness: with two findings on context `"S1"` and one on `"S2"`, the
group for `"S1"` is exactly the first two in order and does not contain
the third. -/
theorem groupMatchesBySentence_spec_witness :
    lookupGroup (groupMatchesBySentence [gms1, gms2, gms3]) ("S1".data) =
        [gms1, gms2] ∧
      gms3 ∉ lookupGroup (groupMatchesBySentence [gms1, gms2, gms3]) ("S1".data) := by
  have h := groupMatchesBySentence_spec [gms1, gms2, gms3] ("S1".data)
  exact ⟨by rw [h.1]; decide, h.2 gms3 (by decide) (by decide)⟩

/-- C1 witness: for content `"The quick brown fox"`, offset 4, length 5,
replacement `"slow"`, the applicator returns `"The slow brown fox"`. -/
theorem handleFix_in_range_witness :
    4 + 5 ≤ ("The quick brown fox".data).length ∧
      handleFix ("The quick brown fox".data)
        ⟨[], [], [["slow".data].head!], 4, 5, []⟩ ("slow".data) =
        "The slow brown fox".data := by
  constructor
  · decide
  · rw [handleFix_in_range ("The quick brown fox".data) ("slow".data)
      ⟨[], [], [["slow".data].head!], 4, 5, []⟩ (by decide)]
    decide

/-- The oracle's answer as stored by the components: `success`, optional
`error` text and the `corrections.matches` finding list (other fields of
`ReadabilityResponse` are display-only and not modelled). -/
structure ReadabilityResponse where
  success : Bool
  error : Option (List Char)
  foundMatches : List Match
deriving DecidableEq, Repr

/-- The React state of the checker components: `content` (the content
buffer), `results` (last response, `none` before the first submit) and
`fixedMatches` (the resolution tracker as the list of keys set to true). -/
structure CheckerState where
  content : List Char
  results : Option ReadabilityResponse
  fixedMatches : List (List Char)
deriving DecidableEq, Repr

/-- `setFixedMatches(prev => ({...prev, [matchKey]: true}))`: record-key
insertion, a no-op when the key already reads true. -/
def markResolved (tracker : List (List Char)) (key : List Char) : List (List Char) :=
  if tracker.contains key then tracker else tracker ++ [key]

/-- `fixedMatches[matchKey]` read as a boolean. -/
def isResolved (tracker : List (List Char)) (key : List Char) : Bool :=
  tracker.contains key

/-- The tracker update performed after a successful fix (`handleFix` in
both components): mark the finding's key resolved in component state. -/
def stateMarkResolved (s : CheckerState) (key : List Char) : CheckerState :=
  { s with fixedMatches := markResolved s.fixedMatches key }

/-- The error text both components store on a failed analysis call. -/
def failedAnalysis : ReadabilityResponse :=
  ⟨false, some "Failed to analyze content".data, []⟩

/-- `handleSubmit` of `CorrrectionDisplay.tsx` (lines 48-65): clear
`fixedMatches`, then store the oracle response, or the generic failure
response when the promise rejects.  The resolved promise is the `oracle`
argument. -/
def handleSubmit (s : CheckerState) (oracle : Except Unit ReadabilityResponse) :
    CheckerState :=
  let s1 : CheckerState := { s with fixedMatches := [] }
  match oracle with
  | Except.ok r => { s1 with results := some r }
  | Except.error _ => { s1 with results := some failedAnalysis }

/-- `onsubmit` of `InputContent.tsx` (lines 107-135): clear `fixedMatches`;
store the response when `success` is true, otherwise (or on a rejected
promise) store the generic failure response. -/
def onsubmit (s : CheckerState) (oracle : Except Unit ReadabilityResponse) :
    CheckerState :=
  let s1 : CheckerState := { s with fixedMatches := [] }
  match oracle with
  | Except.ok r =>
      if r.success then { s1 with results := some r }
      else { s1 with results := some failedAnalysis }
  | Except.error _ => { s1 with results := some failedAnalysis }

/-- C4: every new submission resets the tracker to empty, so after
`markResolved fp` followed by the reset performed by either submit handler,
`isResolved fp` is false — whatever the oracle outcome. -/
theorem submit_resets_tracker (s t : CheckerState) (fp : List Char)
    (o o' : Except Unit ReadabilityResponse) :
    (handleSubmit s o).fixedMatches = [] ∧
      (onsubmit t o').fixedMatches = [] ∧
      isResolved (handleSubmit (stateMarkResolved s fp) o).fixedMatches fp = false ∧
      isResolved (onsubmit (stateMarkResolved t fp) o').fixedMatches fp = false := by
  have hs : ∀ (u : CheckerState) (x : Except Unit ReadabilityResponse),
      (handleSubmit u x).fixedMatches = [] := by
    intro u x
    cases x <;> rfl
  have ht : ∀ (u : CheckerState) (x : Except Unit ReadabilityResponse),
      (onsubmit u x).fixedMatches = [] := by
    intro u x
    cases x with
    | ok r => by_cases hr : r.success = true <;> simp [onsubmit, hr]
    | error e => rfl
  refine ⟨hs s o, ht t o', ?_, ?_⟩
  · rw [hs]; rfl
  · rw [ht]; rfl

/-- A state with a resolved finding and a nonempty buffer, from before a
failing submission. -/
def preFailureState : CheckerState :=
  ⟨"She dont like apples.".data, none, [matchKey fsingle]⟩

/-- C7 counterexample: submitting from `preFailureState` against a failing
oracle leaves the buffer alone but returns a state whose tracker is empty,
not the pre-submission tracker — so buffer and tracker are not both left
untouched. -/
theorem oracle_failure_counterexample :
    (handleSubmit preFailureState (Except.error ())).content = preFailureState.content ∧
      (handleSubmit preFailureState (Except.error ())).fixedMatches ≠
        preFailureState.fixedMatches := by
  constructor
  · rfl
  · intro h
    simp [handleSubmit, preFailureState] at h

/-- C7 amended: on a failed oracle call (rejected promise, and for
`InputContent` also a `success:false` response) the content buffer is left
untouched, but the resolution tracker is not: both submit handlers clear it
to empty at the start of the submission, regardless of the outcome. -/
theorem oracle_failure_state (s t : CheckerState) :
    ((handleSubmit s (Except.error ())).content = s.content ∧
        (handleSubmit s (Except.error ())).fixedMatches = []) ∧
      ((onsubmit t (Except.error ())).content = t.content ∧
        (onsubmit t (Except.error ())).fixedMatches = []) ∧
      ∀ r : ReadabilityResponse, r.success = false →
        (onsubmit t (Except.ok r)).content = t.content ∧
          (onsubmit t (Except.ok r)).fixedMatches = [] := by
  refine ⟨⟨rfl, rfl⟩, ⟨rfl, rfl⟩, fun r hr => ?_⟩
  constructor <;> simp [onsubmit, hr]

/-- C7 amended witness: the amended statement evaluated at
`preFailureState` and a concrete `success:false` response. -/
theorem oracle_failure_state_witness :
    (onsubmit preFailureState (Except.ok failedAnalysis)).content =
        preFailureState.content ∧
      (onsubmit preFailureState (Except.ok failedAnalysis)).fixedMatches = [] :=
  (oracle_failure_state preFailureState preFailureState).2.2 failedAnalysis rfl

/-- The per-field issues produced by `inputSchema.safeParse` as
`(path, message)` pairs: zod's `min(5)` and `max(800)` checks on `content`
(`inputSchema.ts` lines 3-6). -/
def inputSchemaErrors (content : List Char) : List (List Char × List Char) :=
  (if content.length < 5 then
    [("content".data, "Content must be at least 5 characters long".data)]
  else []) ++
  (if 800 < content.length then
    [("content".data, "content must be less than 200 characters long".data)]
  else [])

/-- The languages the analyze route accepts (`supportedLanguages`). -/
def supportedLanguages : List (List Char) :=
  ["en".data, "de".data, "fr".data, "es".data, "it".data]

/-- `const \x7b content, language = 'en' \x7d = parsed.data` followed by
`supportedLanguages.includes(language) ? language : 'en'`. -/
def coerceLanguage (language : Option (List Char)) : List Char :=
  let language := language.getD ("en".data)
  if supportedLanguages.contains language then language else "en".data

/-- What the analyze route does before its oracle call: reject with the
validation errors (HTTP 400, no network call), or dispatch the request text
with the coerced language to the LanguageTool oracle. -/
inductive AnalyzeStep where
  | rejected (errors : List (List Char × List Char))
  | callOracle (text : List Char) (lang : List Char)
deriving DecidableEq, Repr

/-- The validation-and-coercion stage of the analyze route's `POST`
(`src/unnamed/part_000` lines 13-49): `safeParse` failure returns 400 with
the per-field errors before the axios call; otherwise the oracle is called
with the content and the coerced language. -/
def analyzePOST (content : List Char) (language : Option (List Char)) : AnalyzeStep :=
  if inputSchemaErrors content = [] then
    AnalyzeStep.callOracle content (coerceLanguage language)
  else
    AnalyzeStep.rejected (inputSchemaErrors content)

/-- C8: content whose length is outside `[5, 800]` is rejected before any
oracle call, with errors that all name the `content` field; content with
length inside `[5, 800]` passes validation and reaches the oracle call. -/
theorem analyzePOST_validation (content : List Char) (language : Option (List Char)) :
    ((content.length < 5 ∨ 800 < content.length) →
        analyzePOST content language = AnalyzeStep.rejected (inputSchemaErrors content) ∧
          inputSchemaErrors content ≠ [] ∧
          ∀ e ∈ inputSchemaErrors content, e.1 = "content".data) ∧
      (5 ≤ content.length → content.length ≤ 800 →
        inputSchemaErrors content = [] ∧
          analyzePOST content language =
            AnalyzeStep.callOracle content (coerceLanguage language)) := by
  constructor
  · intro hbad
    have hne : inputSchemaErrors content ≠ [] := by
      unfold inputSchemaErrors
      rcases hbad with hlt | hgt
      · simp [hlt]
      · have hge : ¬ content.length < 5 := by omega
        simp [hgt, hge]
    refine ⟨?_, hne, ?_⟩
    · unfold analyzePOST
      rw [if_neg hne]
    · intro e he
      unfold inputSchemaErrors at he
      rcases List.mem_append.mp he with h1 | h1 <;> split at h1 <;> simp_all
  · intro h5 h800
    have hnil : inputSchemaErrors content = [] := by
      unfold inputSchemaErrors
      have hlt : ¬ content.length < 5 := by omega
      have hgt : ¬ 800 < content.length := by omega
      simp [hlt, hgt]
    exact ⟨hnil, by unfold analyzePOST; rw [if_pos hnil]⟩

/-- C8 witness: the 2-character content `"hi"` is rejected before the
oracle call with a `content`-field error, and an 11-character content
passes validation and reaches the oracle call. -/
theorem analyzePOST_validation_witness :
    ("hi".data).length < 5 ∧
      analyzePOST ("hi".data) none =
        AnalyzeStep.rejected (inputSchemaErrors ("hi".data)) ∧
      (∀ e ∈ inputSchemaErrors ("hi".data), e.1 = "content".data) ∧
      5 ≤ ("hello world".data).length ∧ ("hello world".data).length ≤ 800 ∧
      analyzePOST ("hello world".data) none =
        AnalyzeStep.callOracle ("hello world".data) (coerceLanguage none) := by
  have hbad := (analyzePOST_validation ("hi".data) none).1 (Or.inl (by decide))
  have hgood := (analyzePOST_validation ("hello world".data) none).2
    (by decide) (by decide)
  exact ⟨by decide, hbad.1, hbad.2.2, by decide, by decide, hgood.2⟩

/-- C9: an absent language is coerced to `en`; a present language is passed
through unchanged when it is one of `en, de, fr, es, it` and coerced to
`en` otherwise; and whenever the analyze route reaches its oracle call, the
language it sends is exactly this coercion of the submitted value. -/
theorem coerceLanguage_spec (s content : List Char) (language : Option (List Char)) :
    coerceLanguage none = "en".data ∧
      coerceLanguage (some s) =
        (if supportedLanguages.contains s then s else "en".data) ∧
      ∀ text lang, analyzePOST content language = AnalyzeStep.callOracle text lang →
        lang = coerceLanguage language := by
  refine ⟨rfl, rfl, fun text lang h => ?_⟩
  unfold analyzePOST at h
  by_cases hnil : inputSchemaErrors content = []
  · rw [if_pos hnil] at h
    cases h
    rfl
  · rw [if_neg hnil] at h
    cases h

/-- C9 witness: the unsupported language `"xx"` is coerced to `"en"`, the
supported `"de"` passes through, and on a concrete valid submission the
oracle receives the coerced language. -/
theorem coerceLanguage_spec_witness :
    coerceLanguage (some ("xx".data)) = "en".data ∧
      coerceLanguage (some ("de".data)) = "de".data ∧
      coerceLanguage none = "en".data := by
  have h1 := (coerceLanguage_spec ("xx".data) ("hello world".data) (some ("xx".data))).2.1
  have h2 := (coerceLanguage_spec ("de".data) ("hello world".data) (some ("de".data))).2.1
  have h3 := (coerceLanguage_spec ("de".data) ("hello world".data) none).1
  refine ⟨?_, ?_, h3⟩
  · rw [h1]; decide
  · rw [h2]; decide

/-- The insert-keyword route's response body and HTTP status: `newContent`
is present only on the success path, `error` only on the catch path. -/
structure InsertResponse where
  status : Nat
  success : Bool
  newContent : Option (List Char)
  errorReported : Bool
deriving DecidableEq, Repr

/-- The insert-keyword `POST` (`inputSchema.ts` source, lines 8-32): a body
that parses to `\x7bmatch, replacement, content\x7d` gets the substring
splice as `newContent` with `success:true` and status 200; any caught
error (a body that does not parse, `none` here) returns status 500 with
`success:true` and no `newContent`. -/
def insertKeywordPOST (body : Option (Match × List Char × List Char)) : InsertResponse :=
  match body with
  | some (mt, replacement, content) =>
      ⟨200, true, some (handleFix content mt replacement), false⟩
  | none => ⟨500, true, none, true⟩

/-- C10: on the catch path the insert-keyword route responds with HTTP 500
yet `success:true` and no `newContent`; indeed the `success` flag is true
on every path, so it never indicates failure. -/
theorem insertKeywordPOST_error_success :
    (insertKeywordPOST none).status = 500 ∧
      (insertKeywordPOST none).success = true ∧
      (insertKeywordPOST none).newContent = none ∧
      (insertKeywordPOST none).errorReported = true ∧
      ∀ body, (insertKeywordPOST body).success = true := by
  refine ⟨rfl, rfl, rfl, rfl, fun body => ?_⟩
  match body with
  | some (mt, replacement, content) => rfl
  | none => rfl
